import Mathlib

/-!
Verification development for the portfolio-tracker valuation engine
(`app/services/portfolio.py` and `app/services/pricing.py`).

Modelling conventions of this shallow embedding:
* Python floats are embedded as exact rationals (`ℚ`); the `math.isfinite`
  check on a BUY price is vacuous in this embedding because every rational
  is finite.
* Timestamps are abstract UTC instants modelled as natural numbers
  (replay logic only compares them), dates as natural numbers.
* Raising `InvalidTransaction` (or any exception) is modelled with
  `Except String`, carrying the exception message.
* Python dict construction with possibly-repeated keys is last-wins; assoc
  list lookups therefore search the reversed list.
-/

unseal Rat.add Rat.mul Rat.inv Rat.sub

namespace Portfolio

/-- Transaction type enumeration from `app/models.py` (`TransactionType`). -/
inductive TxType
  | BUY
  | SELL
  | MANUAL_VALUE_UPDATE
deriving DecidableEq, Repr

/-- Asset type enumeration from `app/models.py` (`AssetType`). -/
inductive AssetType
  | MARKET
  | MANUAL
deriving DecidableEq, Repr

/-- A transaction row (`app/models.py` `Transaction`), with the accessor
coercions of `_tx_quantity`, `_tx_price`, `_tx_fees`, `_tx_manual_value`,
`_tx_invested_override` already applied (missing numeric fields read as 0). -/
structure Tx where
  id : Nat
  asset_id : Int
  timestamp : Nat
  type : TxType
  quantity : ℚ
  price : ℚ
  fees : ℚ
  manual_value : ℚ
  invested_override : Option ℚ
deriving DecidableEq, Repr

/-- Sort key ordering of `sort_transactions`: timestamp ascending, then id
ascending (lexicographic, matching the Python tuple key). -/
def txLe (a b : Tx) : Prop :=
  a.timestamp < b.timestamp ∨ (a.timestamp = b.timestamp ∧ a.id ≤ b.id)

instance : DecidableRel txLe := fun a b => by
  unfold txLe; infer_instance

/-- Sort transactions deterministically by timestamp then ID
(`sort_transactions`); a stable insertion sort models Python's stable sort. -/
def sort_transactions (txs : List Tx) : List Tx :=
  List.insertionSort txLe txs

/-- Result of `compute_market_position` (dataclass `MarketPosition`). -/
structure MarketPosition where
  quantity : ℚ
  avg_cost : ℚ
deriving DecidableEq, Repr

/-- The oversell / dust tolerance `1e-9` used by the replay loops. -/
def eps : ℚ := 1 / 1000000000

/-- One iteration of the `compute_market_position` replay loop. -/
def marketStep (s : MarketPosition) (tx : Tx) : Except String MarketPosition :=
  match tx.type with
  | .MANUAL_VALUE_UPDATE => .ok s
  | .BUY =>
      if tx.quantity ≤ 0 then .error "BUY quantity must be positive"
      else if tx.fees < 0 then .error "Fees cannot be negative"
      else
        let new_cost_total := s.quantity * s.avg_cost + tx.quantity * tx.price + tx.fees
        let qty := s.quantity + tx.quantity
        .ok ⟨qty, if 0 < qty then new_cost_total / qty else 0⟩
  | .SELL =>
      if tx.quantity ≤ 0 then .error "SELL quantity must be positive"
      else if tx.price ≤ 0 then .error "SELL price must be positive"
      else if eps < tx.quantity - s.quantity then
        .error "Cannot sell more than currently held quantity"
      else
        let qty := s.quantity - tx.quantity
        if qty ≤ eps then .ok ⟨0, 0⟩ else .ok ⟨qty, s.avg_cost⟩

/-- Replay a (presorted) transaction list from a given market state. -/
def marketReplayFrom (s : MarketPosition) : List Tx → Except String MarketPosition
  | [] => .ok s
  | tx :: rest =>
    match marketStep s tx with
    | .ok s' => marketReplayFrom s' rest
    | .error e => .error e

/-- Compute weighted-average quantity and cost basis from BUY/SELL
transactions (`compute_market_position`). -/
def compute_market_position (txs : List Tx) : Except String MarketPosition :=
  marketReplayFrom ⟨0, 0⟩ (sort_transactions txs)

/-- Running state of the `compute_manual_position` replay loop. -/
structure ManualState where
  held_quantity : ℚ
  avg_cost : ℚ
  invested_total : ℚ
  latest_value : Option ℚ
  latest_value_at : Option Nat
deriving DecidableEq, Repr

/-- Result of `compute_manual_position` (dataclass `ManualPosition`). -/
structure ManualPosition where
  current_value : ℚ
  invested_total : ℚ
  unrealized_pnl : Option ℚ
  as_of : Option Nat
deriving DecidableEq, Repr

/-- One iteration of the `compute_manual_position` replay loop. -/
def manualStep (s : ManualState) (tx : Tx) : Except String ManualState :=
  match tx.type with
  | .BUY =>
      if tx.quantity ≤ 0 then .error "Manual BUY quantity must be positive"
      else if tx.price < 0 then .error "Manual BUY price cannot be negative"
      else if tx.fees < 0 then .error "Fees cannot be negative"
      else
        let cost_total := s.invested_total + tx.quantity * tx.price + tx.fees
        let held := s.held_quantity + tx.quantity
        .ok { s with
              held_quantity := held
              invested_total := cost_total
              avg_cost := if 0 < held then cost_total / held else 0 }
  | .SELL =>
      if tx.quantity ≤ 0 then .error "Manual SELL quantity must be positive"
      else if tx.price < 0 then .error "Manual SELL price cannot be negative"
      else if tx.fees < 0 then .error "Fees cannot be negative"
      else if eps < tx.quantity - s.held_quantity then
        .error "Cannot sell more than currently held manual quantity"
      else
        let invested := s.invested_total - s.avg_cost * tx.quantity
        let held := s.held_quantity - tx.quantity
        if held ≤ eps then
          .ok { s with held_quantity := 0, avg_cost := 0, invested_total := 0 }
        else
          .ok { s with
                held_quantity := held
                invested_total := invested
                avg_cost := invested / held }
  | .MANUAL_VALUE_UPDATE =>
      if tx.manual_value < 0 then .error "Manual value cannot be negative"
      else
        let s1 := { s with
                    latest_value := some tx.manual_value
                    latest_value_at := some tx.timestamp }
        match tx.invested_override with
        | none => .ok s1
        | some o =>
          if o < 0 then .error "Manual invested override cannot be negative"
          else
            .ok { s1 with
                  invested_total := o
                  held_quantity := o
                  avg_cost := if 0 < o then 1 else 0 }

/-- Replay a (presorted) transaction list from a given manual state. -/
def manualReplayFrom (s : ManualState) : List Tx → Except String ManualState
  | [] => .ok s
  | tx :: rest =>
    match manualStep s tx with
    | .ok s' => manualReplayFrom s' rest
    | .error e => .error e

/-- Final result assembly of `compute_manual_position` after the replay loop. -/
def manualFinish (s : ManualState) : ManualPosition :=
  let current_value := s.latest_value.getD 0
  { current_value := current_value
    invested_total := s.invested_total
    unrealized_pnl :=
      if 0 < s.invested_total then some (current_value - s.invested_total) else none
    as_of := s.latest_value_at }

/-- Initial state of the manual replay loop. -/
def initManual : ManualState :=
  { held_quantity := 0, avg_cost := 0, invested_total := 0
    latest_value := none, latest_value_at := none }

/-- Compute manual-asset value with optional invested override snapshots
(`compute_manual_position`). -/
def compute_manual_position (txs : List Tx) : Except String ManualPosition :=
  (manualReplayFrom initManual (sort_transactions txs)).map manualFinish

/-- Return allocation percentages for each key
(`compute_allocation_percentages`); the Python dict is modelled as an
association list with unique keys. -/
def compute_allocation_percentages (values_by_key : List (String × ℚ)) :
    List (String × ℚ) :=
  let total := (values_by_key.map Prod.snd).sum
  if total ≤ 0 then values_by_key.map (fun kv => (kv.1, 0))
  else values_by_key.map (fun kv => (kv.1, kv.2 / total * 100))

/-- Validate full transaction history for an asset
(`validate_asset_transactions`); only the asset's type is consulted. -/
def validate_asset_transactions (asset_type : AssetType) (txs : List Tx) :
    Except String Unit :=
  match asset_type with
  | .MARKET =>
      if txs.any (fun tx => tx.type == TxType.MANUAL_VALUE_UPDATE) then
        .error "Market assets do not support MANUAL_VALUE_UPDATE transactions"
      else (compute_market_position txs).map (fun _ => ())
  | .MANUAL => (compute_manual_position txs).map (fun _ => ())

/-- Python `str.upper()` on code points (executable model of the string
methods used by the services). -/
def pyUpper (s : String) : String := ⟨s.data.map Char.toUpper⟩

/-- Python `str.lower()` on code points. -/
def pyLower (s : String) : String := ⟨s.data.map Char.toLower⟩

/-- Python `str.strip()`: drop leading and trailing whitespace. -/
def pyStrip (s : String) : String :=
  ⟨((s.data.dropWhile Char.isWhitespace).reverse.dropWhile Char.isWhitespace).reverse⟩

/-- Code-point lexicographic strict comparison of character lists, modelling
Python string `<`. -/
def charListLt : List Char → List Char → Bool
  | [], [] => false
  | [], _ :: _ => true
  | _ :: _, [] => false
  | a :: as, b :: bs => if a < b then true else if b < a then false else charListLt as bs

/-- Python string strict comparison. -/
def strLtB (a b : String) : Bool := charListLt a.data b.data

/-- A cached quote row (`app/models.py` `QuoteCache`): last known price and
fetch timestamp for a symbol. -/
structure QuoteCacheEntry where
  symbol : String
  price : ℚ
  fetched_at : Int
deriving DecidableEq, Repr

/-- Result of a quote lookup (dataclass `QuoteResult` in
`app/services/pricing.py`). -/
structure QuoteResult where
  symbol : String
  price : ℚ
  fetched_at : Int
  stale : Bool
  warning : Option String
deriving DecidableEq, Repr

/-- Update the first cached row with the symbol in place, or append a new row
(models the `db.add` / attribute-mutation + `db.flush` write path of
`get_quote`). -/
def replaceFirst : List QuoteCacheEntry → QuoteCacheEntry → List QuoteCacheEntry
  | [], e => [e]
  | c :: rest, e =>
    if c.symbol == e.symbol then e :: rest else c :: replaceFirst rest e

/-- Quote lookup with TTL cache and stale-on-failure fallback
(`PricingService.get_quote`). The provider either returns a fresh
(price, fetched_at) pair or fails with an exception message; `now` is the
current UTC instant, in seconds like `ttl_seconds`. Returns the optional
quote result together with the updated cache table; a provider failure is
caught inside and never propagated. -/
def get_quote (provider : String → Except String (ℚ × Int)) (ttl_seconds : Int)
    (cache : List QuoteCacheEntry) (now : Int) (symbol : String) :
    Option QuoteResult × List QuoteCacheEntry :=
  let clean_symbol := pyUpper (pyStrip symbol)
  let cached := cache.find? (fun e => e.symbol == clean_symbol)
  let ttl_hit : Option QuoteResult :=
    match cached with
    | some entry =>
      if now - entry.fetched_at ≤ ttl_seconds then
        some ⟨clean_symbol, entry.price, entry.fetched_at, false, none⟩
      else none
    | none => none
  match ttl_hit with
  | some r => (some r, cache)
  | none =>
    match provider clean_symbol with
    | .ok (p, t) =>
        (some ⟨clean_symbol, p, t, false, none⟩,
         replaceFirst cache ⟨clean_symbol, p, t⟩)
    | .error exc =>
        match cached with
        | some entry =>
            (some ⟨clean_symbol, entry.price, entry.fetched_at, true,
                   some ("Using cached quote due to provider issue: " ++ exc)⟩,
             cache)
        | none => (none, cache)

/-- An asset row (`app/models.py` `Asset`) with its group join resolved:
`group_name` is `asset.group.name` when a group is linked. -/
structure MAsset where
  id : Int
  symbol : String
  name : String
  group_name : Option String
  asset_type : AssetType
  is_archived : Bool
deriving DecidableEq, Repr

/-- The observable fields of a `PricingService.get_quote` result as consumed
by the dashboard read path. -/
structure QuoteView where
  price : ℚ
  fetched_at : Int
  stale : Bool
deriving DecidableEq, Repr

/-- One dashboard row (dataclass `PositionRow`). -/
structure PositionRow where
  asset_id : Int
  symbol : String
  name : String
  group_name : String
  asset_type : AssetType
  quantity : Option ℚ
  avg_cost : Option ℚ
  current_price : Option ℚ
  current_value : ℚ
  unrealized_pnl : Option ℚ
  allocation_pct : ℚ
  as_of : Option Int
  quote_stale : Bool
  row_kind : String
  detail_path : String
  valuation_scope : String
  counts_in_totals : Bool
  counts_in_allocation : Bool
  display_badge : Option String
  basket_member_ids : List Int
  in_basket_member : Bool
deriving DecidableEq, Repr

/-- Compute one dashboard row for a single asset (`compute_asset_position`);
the pricing service is abstracted as a read-only oracle from symbol to an
optional current quote. -/
def compute_asset_position (pricing : String → Option QuoteView) (asset : MAsset)
    (txs : List Tx) : Except String PositionRow :=
  let group_name := asset.group_name.getD "Ungrouped"
  match asset.asset_type with
  | .MARKET =>
    match compute_market_position txs with
    | .error e => .error e
    | .ok market =>
      let quote := pricing asset.symbol
      let current_price : Option ℚ := quote.map (·.price)
      let current_value : ℚ :=
        match current_price with
        | some p => market.quantity * p
        | none => 0
      .ok { asset_id := asset.id
            symbol := asset.symbol
            name := asset.name
            group_name := group_name
            asset_type := asset.asset_type
            quantity := some market.quantity
            avg_cost := some market.avg_cost
            current_price := current_price
            current_value := current_value
            unrealized_pnl :=
              current_price.map (fun p => (p - market.avg_cost) * market.quantity)
            allocation_pct := 0
            as_of := quote.map (·.fetched_at)
            quote_stale := (quote.map (·.stale)).getD false
            row_kind := "asset"
            detail_path := "/assets/" ++ toString asset.id
            valuation_scope := "canonical"
            counts_in_totals := true
            counts_in_allocation := true
            display_badge := none
            basket_member_ids := []
            in_basket_member := false }
  | .MANUAL =>
    match compute_manual_position txs with
    | .error e => .error e
    | .ok manual =>
      .ok { asset_id := asset.id
            symbol := asset.symbol
            name := asset.name
            group_name := group_name
            asset_type := asset.asset_type
            quantity := none
            avg_cost :=
              if 0 < manual.invested_total then some manual.invested_total else none
            current_price := none
            current_value := manual.current_value
            unrealized_pnl := manual.unrealized_pnl
            allocation_pct := 0
            as_of := manual.as_of.map (fun t => (t : Int))
            quote_stale := false
            row_kind := "asset"
            detail_path := "/assets/" ++ toString asset.id
            valuation_scope := "canonical"
            counts_in_totals := true
            counts_in_allocation := true
            display_badge := none
            basket_member_ids := []
            in_basket_member := false }

/-- A basket membership link (`app/models.py` `BasketAsset`): `asset` is the
joined asset row (none when dangling) and `asset_transactions` the linked
asset's transactions as loaded by the ORM relationship. -/
structure BasketLink where
  asset_id : Int
  asset : Option MAsset
  asset_transactions : List Tx
deriving DecidableEq, Repr

/-- A basket (`app/models.py` `Basket`). -/
structure Basket where
  id : Int
  name : String
  assets : List BasketLink
deriving DecidableEq, Repr

/-- Last-wins dictionary lookup into the per-asset position rows, modelling
the `asset_positions` dict comprehension of `build_dashboard_snapshot`. -/
def lookupRow (rows : List PositionRow) (aid : Int) : Option PositionRow :=
  rows.reverse.find? (fun r => r.asset_id == aid)

/-- The active-market-member filter shared by `_compute_basket_position` and
the basket-member-id collection in `build_dashboard_snapshot`. -/
def basketLinkActive (rows : List PositionRow) (link : BasketLink) : Bool :=
  match link.asset with
  | some a => a.asset_type == AssetType.MARKET && !a.is_archived &&
      (lookupRow rows link.asset_id).isSome
  | none => false

/-- Accumulator of the member loop in `_compute_basket_position`. -/
structure BasketAcc where
  current_value : ℚ
  as_of : Option Int
  quote_stale : Bool
  derived_pnl : ℚ
  has_member_pnl : Bool
  member_ids : List Int
deriving DecidableEq, Repr

/-- Build a synthetic dashboard row for one basket
(`_compute_basket_position`); members are resolved through the last-wins
row dictionary, mirroring `asset_positions[link.asset_id]`. -/
def computeBasketPosition (basket : Basket) (rows : List PositionRow) : PositionRow :=
  let market_links := basket.assets.filter (basketLinkActive rows)
  let members := market_links.filterMap
    (fun link => (lookupRow rows link.asset_id).map (fun r => (link.asset_id, r)))
  let st := members.foldl
    (fun (acc : BasketAcc) m =>
      let member := m.2
      { current_value := acc.current_value + member.current_value
        member_ids := acc.member_ids ++ [m.1]
        derived_pnl :=
          match member.unrealized_pnl with
          | some p => acc.derived_pnl + p
          | none => acc.derived_pnl
        has_member_pnl :=
          match member.unrealized_pnl with
          | some _ => true
          | none => acc.has_member_pnl
        as_of :=
          match member.as_of, acc.as_of with
          | some t, none => some t
          | some t, some u => if u < t then some t else some u
          | none, o => o
        quote_stale := acc.quote_stale || member.quote_stale })
    ⟨0, none, false, 0, false, []⟩
  { asset_id := -basket.id
    symbol := "BASKET:" ++ toString basket.id
    name := basket.name
    group_name := "baskets"
    asset_type := AssetType.MANUAL
    quantity := none
    avg_cost := none
    current_price := none
    current_value := st.current_value
    unrealized_pnl := if st.has_member_pnl then some st.derived_pnl else none
    allocation_pct := 0
    as_of := st.as_of
    quote_stale := st.quote_stale
    row_kind := "basket"
    detail_path := "/baskets/" ++ toString basket.id
    valuation_scope := "derived"
    counts_in_totals := false
    counts_in_allocation := false
    display_badge := some "Derived (excluded from totals)"
    basket_member_ids := List.insertionSort (fun a b : Int => a ≤ b) st.member_ids
    in_basket_member := false }

/-- Strict comparison on the asset sort key of `build_dashboard_snapshot`:
(group name lowercased or empty, symbol lowercased, id). -/
def assetKeyLt (a b : MAsset) : Bool :=
  let ga := match a.group_name with | some g => pyLower g | none => ""
  let gb := match b.group_name with | some g => pyLower g | none => ""
  if strLtB ga gb then true
  else if strLtB gb ga then false
  else if strLtB (pyLower a.symbol) (pyLower b.symbol) then true
  else if strLtB (pyLower b.symbol) (pyLower a.symbol) then false
  else decide (a.id < b.id)

/-- Python tuple-key `sorted` ordering for assets (non-strict). -/
def assetSortLe (a b : MAsset) : Prop := assetKeyLt b a = false

instance : DecidableRel assetSortLe := fun a b => by
  unfold assetSortLe; infer_instance

/-- Strict comparison on the position-row sort key of
`build_dashboard_snapshot`: (scope is not canonical, group lowercased,
symbol lowercased, asset id). -/
def rowKeyLt (a b : PositionRow) : Bool :=
  let sa : Bool := !(a.valuation_scope == "canonical")
  let sb : Bool := !(b.valuation_scope == "canonical")
  if !sa && sb then true
  else if sa && !sb then false
  else if strLtB (pyLower a.group_name) (pyLower b.group_name) then true
  else if strLtB (pyLower b.group_name) (pyLower a.group_name) then false
  else if strLtB (pyLower a.symbol) (pyLower b.symbol) then true
  else if strLtB (pyLower b.symbol) (pyLower a.symbol) then false
  else decide (a.asset_id < b.asset_id)

/-- Python tuple-key `sorted` ordering for position rows (non-strict). -/
def rowSortLe (a b : PositionRow) : Prop := rowKeyLt b a = false

instance : DecidableRel rowSortLe := fun a b => by
  unfold rowSortLe; infer_instance

/-- Skip assets whose id was already seen (the `seen_asset_ids` guard). -/
def dedupAssetsAux : List MAsset → List Int → List MAsset
  | [], _ => []
  | a :: rest, seen =>
    if seen.contains a.id then dedupAssetsAux rest seen
    else a :: dedupAssetsAux rest (a.id :: seen)

/-- Effectful map over `Except`, modelling a Python loop that may raise. -/
def mapME {α β : Type} (f : α → Except String β) : List α → Except String (List β)
  | [] => .ok []
  | a :: as =>
    match f a with
    | .error e => .error e
    | .ok b =>
      match mapME f as with
      | .error e => .error e
      | .ok bs => .ok (b :: bs)

/-- Collect basket member asset ids over all baskets (set semantics via
`contains`; the underlying list may repeat ids). -/
def basketMemberIds (baskets : List Basket) (rows : List PositionRow) : List Int :=
  (baskets.map (fun b => (b.assets.filter (basketLinkActive rows)).map
    (fun l => l.asset_id))).flatten

/-- One per-group accumulator entry of the canonical totals dict. -/
structure GroupTotal where
  value : ℚ
  pnl : ℚ
deriving DecidableEq, Repr

/-- One iteration of the canonical totals loop: bump the row's group bucket
(the `defaultdict` is modelled as a total function defaulting to zeros). -/
def addGroupTotals (m : String → GroupTotal) (r : PositionRow) : String → GroupTotal :=
  fun g =>
    if g = r.group_name then
      ⟨(m r.group_name).value + r.current_value,
       (m r.group_name).pnl + r.unrealized_pnl.getD 0⟩
    else m g

/-- Last-wins dict `.get(key, 0.0)` over the allocation percentage map. -/
def allocLookup (alloc : List (String × ℚ)) (key : String) : ℚ :=
  match alloc.reverse.find? (fun kv => kv.1 == key) with
  | some kv => kv.2
  | none => 0

/-- Dashboard data with canonical accounting and derived basket overlays
(dataclass `DashboardSnapshot`). -/
structure DashboardSnapshot where
  positions : List PositionRow
  canonical_positions : List PositionRow
  derived_positions : List PositionRow
  canonical_group_totals : String → GroupTotal
  canonical_total_value : ℚ
  canonical_total_unrealized_pnl : ℚ
  derived_total_value : ℚ
  derived_total_unrealized_pnl : ℚ
  basket_member_asset_ids : List Int
  group_totals : String → GroupTotal
  total_value : ℚ
  total_unrealized_pnl : ℚ

/-- Mark a per-asset row that belongs to at least one basket
(the `row.in_basket_member = True` loop). -/
def markRow (memberIds : List Int) (r : PositionRow) : PositionRow :=
  if memberIds.contains r.asset_id then { r with in_basket_member := true } else r

/-- Write a row's allocation percentage from the allocation map
(the final loop of `build_dashboard_snapshot`). -/
def applyAllocation (alloc : List (String × ℚ)) (r : PositionRow) : PositionRow :=
  if r.counts_in_allocation then
    { r with allocation_pct := allocLookup alloc (toString r.asset_id) }
  else { r with allocation_pct := 0 }

/-- The combined, deterministically sorted row list of the snapshot: marked
per-asset rows followed by basket rows, sorted by the row key. -/
def snapshotAllRows (assetRows : List PositionRow) (baskets : List Basket) :
    List PositionRow :=
  List.insertionSort rowSortLe
    (assetRows.map (markRow (basketMemberIds baskets assetRows)) ++
     baskets.map (fun b => computeBasketPosition b assetRows))

/-- The allocation percentage map over allocation-eligible canonical rows. -/
def snapshotAllocMap (canonical : List PositionRow) : List (String × ℚ) :=
  compute_allocation_percentages
    (canonical.filterMap (fun r =>
      if r.counts_in_allocation then some (toString r.asset_id, r.current_value)
      else none))

/-- Snapshot assembly from the computed per-asset rows (the remainder of
`build_dashboard_snapshot` after the per-asset loop). -/
def buildSnapshotCore (assetRows : List PositionRow) (baskets : List Basket) :
    DashboardSnapshot :=
  let allRows := snapshotAllRows assetRows baskets
  let canonical := allRows.filter (fun r => r.counts_in_totals)
  let derived := allRows.filter (fun r => !r.counts_in_totals)
  let groupTotals := canonical.foldl addGroupTotals (fun _ => ⟨0, 0⟩)
  let totalValue := canonical.foldl (fun acc r => acc + r.current_value) 0
  let totalPnl := canonical.foldl (fun acc r => acc + r.unrealized_pnl.getD 0) 0
  let derivedValue := derived.foldl (fun acc r => acc + r.current_value) 0
  let derivedPnl := derived.foldl (fun acc r => acc + r.unrealized_pnl.getD 0) 0
  let upd := applyAllocation (snapshotAllocMap canonical)
  { positions := allRows.map upd
    canonical_positions := canonical.map upd
    derived_positions := derived.map upd
    canonical_group_totals := groupTotals
    canonical_total_value := totalValue
    canonical_total_unrealized_pnl := totalPnl
    derived_total_value := derivedValue
    derived_total_unrealized_pnl := derivedPnl
    basket_member_asset_ids := basketMemberIds baskets assetRows
    group_totals := groupTotals
    total_value := totalValue
    total_unrealized_pnl := totalPnl }

/-- The per-asset loop of `build_dashboard_snapshot`: archived assets are
filtered out, assets sorted by (group, symbol, id), duplicate ids skipped,
and each asset's row computed from its own transactions. -/
def dashboardAssetRows (pricing : String → Option QuoteView)
    (assets : List MAsset) (txs : List Tx) : Except String (List PositionRow) :=
  mapME
    (fun a => compute_asset_position pricing a
      ((sort_transactions txs).filter (fun t => t.asset_id == a.id)))
    (dedupAssetsAux
      (List.insertionSort assetSortLe (assets.filter (fun a => !a.is_archived))) [])

/-- Build dashboard data (`build_dashboard_snapshot`). The database reads
are modelled by the input lists: `assets` the portfolio's asset rows,
`txs` its transactions, `baskets` its baskets with joined links. -/
def build_dashboard_snapshot (pricing : String → Option QuoteView)
    (assets : List MAsset) (txs : List Tx) (baskets : List Basket) :
    Except String DashboardSnapshot :=
  match dashboardAssetRows pricing assets txs with
  | .error e => .error e
  | .ok assetRows => .ok (buildSnapshotCore assetRows baskets)

/-- Extract the snapshot from a successful build (an empty snapshot stands
in for the error case, which callers rule out). -/
def snapOr (x : Except String DashboardSnapshot) : DashboardSnapshot :=
  match x with
  | .ok s => s
  | .error _ =>
    { positions := [], canonical_positions := [], derived_positions := []
      canonical_group_totals := fun _ => ⟨0, 0⟩
      canonical_total_value := 0, canonical_total_unrealized_pnl := 0
      derived_total_value := 0, derived_total_unrealized_pnl := 0
      basket_member_asset_ids := []
      group_totals := fun _ => ⟨0, 0⟩, total_value := 0, total_unrealized_pnl := 0 }

/-- One historical daily close (dataclass `HistoricalPoint`); dates are
abstract day numbers. -/
structure HistoricalPoint where
  date : Nat
  close : ℚ
deriving DecidableEq, Repr

/-- Basket series result (dataclass `BasketSeriesResult`); points are
(date, value) pairs. -/
structure BasketSeriesResult where
  points : List (Nat × ℚ)
  missing_symbols : List String
  error_message : Option String
deriving DecidableEq, Repr

/-- `PricingService.get_historical_daily`: symbol cleanup plus the
best-effort fallback to an empty list when the provider raises. -/
def get_historical_daily
    (provider_hist : String → Except String (List HistoricalPoint))
    (symbol : String) : List HistoricalPoint :=
  match provider_hist (pyUpper (pyStrip symbol)) with
  | .ok points => points
  | .error _ => []

/-- The live held quantity of one basket member (`_basket_member_quantity`). -/
def basket_member_quantity (link : BasketLink) : ℚ :=
  match link.asset with
  | none => 0
  | some a =>
    if a.asset_type != AssetType.MARKET then 0
    else if a.is_archived then 0
    else
      match link.asset_transactions with
      | [] => 0
      | txs =>
        match compute_market_position txs with
        | .ok position => max position.quantity 0
        | .error _ => 0

/-- Resolve each link's joined asset; a dangling link makes the Python code
dereference `None` (modelled as a raised AttributeError). -/
def resolveLinks (basket_links : List BasketLink) :
    Except String (List (BasketLink × MAsset)) :=
  mapME
    (fun l => match l.asset with
      | some a => .ok (l, a)
      | none => .error "AttributeError: NoneType has no attribute asset_type")
    basket_links

/-- Active market links of `compute_basket_series`. -/
def basketMarketLinks (pairs : List (BasketLink × MAsset)) :
    List (BasketLink × MAsset) :=
  pairs.filter (fun p => p.2.asset_type == AssetType.MARKET && !p.2.is_archived)

/-- Last-wins lookup into the `quantities_by_asset_id` dict (default 0). -/
def quantityLookup (mlinks : List (BasketLink × MAsset)) (aid : Int) : ℚ :=
  match mlinks.reverse.find? (fun p => p.1.asset_id == aid) with
  | some p => basket_member_quantity p.1
  | none => 0

/-- Members with positive live share count (`positive_links`). -/
def basketPositiveLinks (mlinks : List (BasketLink × MAsset)) :
    List (BasketLink × MAsset) :=
  mlinks.filter (fun p => decide (0 < quantityLookup mlinks p.1.asset_id))

/-- Normalize live-share weights to sum to one
(`_normalized_basket_weights`). -/
def normalized_basket_weights (quantLookup : Int → ℚ)
    (market_links : List (BasketLink × MAsset)) : Except String (List ℚ) :=
  match market_links with
  | [] => .ok []
  | _ =>
    let raw := market_links.map (fun p => max (quantLookup p.1.asset_id) 0)
    let total := raw.sum
    if total ≤ 0 then .error "Basket members must have positive total shares"
    else .ok (raw.map (fun w => w / total))

/-- The in-range positive-close close-by-date dict of one member (the dict
comprehension over `get_historical_daily` points), as an assoc list. -/
def memberSeries (provider_hist : String → Except String (List HistoricalPoint))
    (startD endD : Nat) (p : BasketLink × MAsset) : List (Nat × ℚ) :=
  (get_historical_daily provider_hist p.2.symbol).filterMap
    (fun pt =>
      if startD ≤ pt.date ∧ pt.date ≤ endD ∧ 0 < pt.close
      then some (pt.date, pt.close) else none)

/-- Last-wins date lookup in one member's series dict. -/
def seriesGet (s : List (Nat × ℚ)) (d : Nat) : Option ℚ :=
  (s.reverse.find? (fun kv => kv.1 == d)).map Prod.snd

/-- The per-member collection loop of `compute_basket_series`: accumulates
`series_by_asset_id` and `missing_symbols` in iteration order. -/
def collectSeries (provider_hist : String → Except String (List HistoricalPoint))
    (startD endD : Nat) (positive : List (BasketLink × MAsset)) :
    List (Int × List (Nat × ℚ)) × List String :=
  positive.foldl
    (fun acc p =>
      let series := memberSeries provider_hist startD endD p
      if series = [] then (acc.1, acc.2 ++ [p.2.symbol])
      else (acc.1 ++ [(p.1.asset_id, series)], acc.2))
    ([], [])

/-- Last-wins lookup of one member's series dict by asset id (a missing key
would be a Python KeyError; the exercised paths always find the key). -/
def seriesDictGet (dict : List (Int × List (Nat × ℚ))) (aid : Int) :
    List (Nat × ℚ) :=
  match dict.reverse.find? (fun kv => kv.1 == aid) with
  | some kv => kv.2
  | none => []

/-- The date key set of one member series. -/
def seriesDates (s : List (Nat × ℚ)) : List Nat := (s.map Prod.fst).dedup

/-- Intersection of all members' date sets (`common_dates`). -/
def commonDates (dict : List (Int × List (Nat × ℚ))) : List Nat :=
  (dict.foldl
    (fun (acc : Option (List Nat)) kv =>
      match acc with
      | none => some (seriesDates kv.2)
      | some cs => some (cs.filter (fun d => (seriesDates kv.2).contains d)))
    none).getD []

/-- Python `sorted(set(...))` over symbol strings. -/
def sortedSetStr (l : List String) : List String :=
  List.insertionSort (fun a b => strLtB b a = false) l.dedup

instance : DecidableRel (fun (a b : String) => strLtB b a = false) := fun a b => by
  infer_instance

/-- The baseline collection loop with its early non-positive-baseline
return carried as the error value. -/
def collectBaselines (dict : List (Int × List (Nat × ℚ))) (startDate : Nat) :
    List (BasketLink × MAsset) → Except BasketSeriesResult (List (Int × ℚ))
  | [] => .ok []
  | p :: rest =>
    let baseline := (seriesGet (seriesDictGet dict p.1.asset_id) startDate).getD 0
    if baseline ≤ 0 then
      .error ⟨[], [p.2.symbol],
              some ("Invalid baseline price for " ++ p.2.symbol ++ ".")⟩
    else
      match collectBaselines dict startDate rest with
      | .error r => .error r
      | .ok bs => .ok ((p.1.asset_id, baseline) :: bs)

/-- Last-wins lookup into `baseline_by_asset_id`. -/
def baselineGet (bs : List (Int × ℚ)) (aid : Int) : ℚ :=
  match bs.reverse.find? (fun kv => kv.1 == aid) with
  | some kv => kv.2
  | none => 0

/-- The weighted composite index value of one day (the inner loop of
`compute_basket_series`). -/
def compositeValue (dict : List (Int × List (Nat × ℚ))) (baselines : List (Int × ℚ))
    (weights : List ℚ) (positive : List (BasketLink × MAsset)) (day : Nat) : ℚ :=
  ((weights.zip positive).map (fun wp =>
    let close := (seriesGet (seriesDictGet dict wp.2.1.asset_id) day).getD 0
    let baseline := baselineGet baselines wp.2.1.asset_id
    wp.1 * (100 * (close / baseline)))).sum

/-- The series/missing/intersection/baseline/composite stages of
`compute_basket_series` after the weights are normalized. -/
def basketSeriesTail (provider_hist : String → Except String (List HistoricalPoint))
    (startD endD : Nat) (positive : List (BasketLink × MAsset))
    (weights : List ℚ) : Except String BasketSeriesResult :=
  let dm := collectSeries provider_hist startD endD positive
  if dm.2 = [] then
    if dm.1 = [] then
      .ok ⟨[], [], some "No historical data available."⟩
    else
      let cds := commonDates dm.1
      if cds = [] then
        .ok ⟨[], [],
             some "No overlapping historical dates across basket members."⟩
      else
        let ordered := List.insertionSort (fun a b : Nat => a ≤ b) cds
        let startDate := ordered.headD 0
        match collectBaselines dm.1 startDate positive with
        | .error r => .ok r
        | .ok baselines =>
          .ok ⟨ordered.map (fun day =>
                (day, compositeValue dm.1 baselines weights positive day)),
               [], none⟩
  else
    .ok ⟨[], sortedSetStr dm.2,
         some ("Missing historical data for: " ++
               String.intercalate ", " (sortedSetStr dm.2))⟩

/-- Compute the normalized basket series with strict date intersection
across members (`compute_basket_series`); the historical provider may fail
per symbol, which `get_historical_daily` converts to an empty history. -/
def compute_basket_series
    (provider_hist : String → Except String (List HistoricalPoint))
    (basket_links : List BasketLink) (startD endD : Nat) :
    Except String BasketSeriesResult :=
  match resolveLinks basket_links with
  | .error e => .error e
  | .ok pairs =>
    let market_links := basketMarketLinks pairs
    if market_links = [] then
      .ok ⟨[], [], some "Basket has no active market assets."⟩
    else
      let positive := basketPositiveLinks market_links
      if positive = [] then
        .ok ⟨[], [],
             some "Basket members have zero shares. Add holdings to included assets."⟩
      else
        match normalized_basket_weights (quantityLookup market_links) positive with
        | .error e => .error e
        | .ok weights => basketSeriesTail provider_hist startD endD positive weights

/-- A sample basket member asset holding 2 shares. -/
def basketAssetX : MAsset := ⟨1, "XX", "X", none, .MARKET, false⟩

/-- A sample basket member asset holding 8 shares. -/
def basketAssetY : MAsset := ⟨2, "YY", "Y", none, .MARKET, false⟩

/-- Link to the first sample member with its BUY history. -/
def basketLinkX : BasketLink :=
  ⟨1, some basketAssetX, [⟨1, 1, 1, .BUY, 2, 10, 0, 0, none⟩]⟩

/-- Link to the second sample member with its BUY history. -/
def basketLinkY : BasketLink :=
  ⟨2, some basketAssetY, [⟨2, 2, 1, .BUY, 8, 10, 0, 0, none⟩]⟩

/-- A sample historical provider with data for both members, overlapping on
days 2 and 3 only. -/
def sampleHistFull : String → Except String (List HistoricalPoint) := fun s =>
  if s = "XX" then .ok [⟨2, 10⟩, ⟨3, 12⟩]
  else if s = "YY" then .ok [⟨1, 50⟩, ⟨2, 50⟩, ⟨3, 55⟩]
  else .error "no data"

/-- A sample historical provider that fails for the first member. -/
def sampleHistMissing : String → Except String (List HistoricalPoint) := fun s =>
  if s = "YY" then .ok [⟨1, 50⟩] else .error "boom"

/-- A sample active MARKET member with zero live shares. -/
def basketAssetZ : MAsset := ⟨3, "ZZ", "Z", none, .MARKET, false⟩

/-- Link to the zero-share member: no transactions, so its live held
quantity is 0. -/
def basketLinkZ : BasketLink := ⟨3, some basketAssetZ, []⟩

/-- A sample historical provider that has data only for member YY; the
zero-share member ZZ has no historical data at all. -/
def sampleHistZeroShare : String → Except String (List HistoricalPoint) := fun s =>
  if s = "YY" then .ok [⟨1, 50⟩, ⟨2, 55⟩] else .error "no data"

/-- A sample MARKET asset used by the concrete snapshot instantiation. -/
def sampleAsset : MAsset := ⟨1, "AAA", "Asset A", some "Growth", .MARKET, false⟩

/-- A sample pricing oracle returning one fixed quote. -/
def samplePricing : String → Option QuoteView := fun _ => some ⟨12, 5, false⟩

/-- Sample transactions: one BUY of 2 units at 10. -/
def sampleTxs : List Tx := [⟨1, 1, 1, .BUY, 2, 10, 0, 0, none⟩]

/-- A sample basket containing the sample asset. -/
def sampleBaskets : List Basket := [⟨1, "Mix", [⟨1, some sampleAsset, sampleTxs⟩]⟩]

/-- The concrete snapshot built from the sample data. -/
def sampleSnapshot : DashboardSnapshot :=
  snapOr (build_dashboard_snapshot samplePricing [sampleAsset] sampleTxs sampleBaskets)

section Lemmas

theorem sum_map_add (f g : Tx → ℚ) (l : List Tx) :
    (l.map (fun x => f x + g x)).sum = (l.map f).sum + (l.map g).sum := by
  induction l with
  | nil => simp
  | cons x xs ih => simp [ih]; ring

theorem sum_map_mul_const {α : Type} (f : α → ℚ) (c : ℚ) (l : List α) :
    (l.map (fun x => f x * c)).sum = (l.map f).sum * c := by
  induction l with
  | nil => simp
  | cons x xs ih => simp [ih]; ring

/-- Replaying a concatenation first replays the prefix, then the suffix. -/
theorem marketReplayFrom_append (s : MarketPosition) (l1 l2 : List Tx) :
    marketReplayFrom s (l1 ++ l2) =
      match marketReplayFrom s l1 with
      | .ok s' => marketReplayFrom s' l2
      | .error e => .error e := by
  induction l1 generalizing s with
  | nil => simp [marketReplayFrom]
  | cons tx rest ih =>
    simp only [List.cons_append, marketReplayFrom]
    cases marketStep s tx with
    | ok s' => exact ih s'
    | error e => rfl

theorem manualReplayFrom_append (s : ManualState) (l1 l2 : List Tx) :
    manualReplayFrom s (l1 ++ l2) =
      match manualReplayFrom s l1 with
      | .ok s' => manualReplayFrom s' l2
      | .error e => .error e := by
  induction l1 generalizing s with
  | nil => simp [manualReplayFrom]
  | cons tx rest ih =>
    simp only [List.cons_append, manualReplayFrom]
    cases manualStep s tx with
    | ok s' => exact ih s'
    | error e => rfl

/-- BUY-only replay: from a nonnegative starting quantity, a list of valid
BUY transactions accumulates the quantity sum and the weighted-average cost. -/
theorem buyReplay (l : List Tx)
    (hall : ∀ tx ∈ l, tx.type = TxType.BUY ∧ 0 < tx.quantity ∧ 0 ≤ tx.fees) :
    ∀ q a : ℚ, 0 ≤ q → 0 < q + (l.map (·.quantity)).sum →
      marketReplayFrom ⟨q, a⟩ l =
        .ok ⟨q + (l.map (·.quantity)).sum,
             (q * a + (l.map (fun t => t.quantity * t.price + t.fees)).sum) /
               (q + (l.map (·.quantity)).sum)⟩ := by
  induction l with
  | nil =>
    intro q a _ hq
    simp only [List.map_nil, List.sum_nil, add_zero] at hq ⊢
    simp [marketReplayFrom, mul_div_assoc, mul_div_cancel_left₀ a (ne_of_gt hq)]
  | cons tx rest ih =>
    intro q a hq hpos
    obtain ⟨hty, hqty, hfees⟩ := hall tx (List.mem_cons_self tx rest)
    have hrest : ∀ t ∈ rest, t.type = TxType.BUY ∧ 0 < t.quantity ∧ 0 ≤ t.fees :=
      fun t ht => hall t (List.mem_cons_of_mem tx ht)
    have hq' : 0 < q + tx.quantity := by linarith
    have hsum_nonneg : 0 ≤ (rest.map (·.quantity)).sum := by
      apply List.sum_nonneg
      intro x hx
      obtain ⟨t, ht, rfl⟩ := List.mem_map.mp hx
      exact le_of_lt (hrest t ht).2.1
    have hpos' : 0 < q + tx.quantity + (rest.map (·.quantity)).sum := by linarith
    simp only [marketReplayFrom, marketStep, hty]
    rw [if_neg (not_le.mpr hqty), if_neg (not_lt.mpr hfees), if_pos hq']
    show marketReplayFrom
        ⟨q + tx.quantity, (q * a + tx.quantity * tx.price + tx.fees) / (q + tx.quantity)⟩
        rest = _
    rw [ih hrest (q + tx.quantity) _ (le_of_lt hq') hpos']
    congr 1
    have hne : q + tx.quantity ≠ 0 := ne_of_gt hq'
    refine MarketPosition.mk.injEq .. ▸ ?_
    constructor
    · simp [List.map_cons, List.sum_cons]; ring
    · simp only [List.map_cons, List.sum_cons]
      rw [mul_comm (q + tx.quantity), div_mul_cancel₀ _ hne]
      congr 1
      · ring
      · ring

theorem foldl_add_map (f : PositionRow → ℚ) (l : List PositionRow) :
    ∀ acc : ℚ, l.foldl (fun a r => a + f r) acc = acc + (l.map f).sum := by
  induction l with
  | nil => intro acc; simp
  | cons r rest ih =>
    intro acc
    simp only [List.foldl_cons, List.map_cons, List.sum_cons, ih]
    ring

theorem mapME_mem {α β : Type} (f : α → Except String β) (l : List α)
    (bs : List β) (h : mapME f l = .ok bs) :
    ∀ b ∈ bs, ∃ a ∈ l, f a = .ok b := by
  induction l generalizing bs with
  | nil =>
    simp only [mapME] at h
    injection h with h
    subst h
    intro b hb
    cases hb
  | cons a as ih =>
    simp only [mapME] at h
    cases hfa : f a with
    | error e => rw [hfa] at h; cases h
    | ok b0 =>
      rw [hfa] at h
      cases hrest : mapME f as with
      | error e => rw [hrest] at h; cases h
      | ok bs0 =>
        rw [hrest] at h
        injection h with h
        subst h
        intro b hb
        rcases List.mem_cons.mp hb with hb | hb
        · exact ⟨a, List.mem_cons_self a as, hb ▸ hfa⟩
        · obtain ⟨a', ha', hfa'⟩ := ih bs0 hrest b hb
          exact ⟨a', List.mem_cons_of_mem a ha', hfa'⟩

theorem compute_asset_position_fields (pricing : String → Option QuoteView)
    (asset : MAsset) (txs : List Tx) (r : PositionRow)
    (h : compute_asset_position pricing asset txs = .ok r) :
    r.row_kind = "asset" ∧ r.counts_in_totals = true := by
  cases hty : asset.asset_type with
  | MARKET =>
    cases hm : compute_market_position txs with
    | error e => simp [compute_asset_position, hty, hm] at h
    | ok market =>
      simp only [compute_asset_position, hty, hm, Except.ok.injEq] at h
      subst h
      exact ⟨rfl, rfl⟩
  | MANUAL =>
    cases hm : compute_manual_position txs with
    | error e => simp [compute_asset_position, hty, hm] at h
    | ok manual =>
      simp only [compute_asset_position, hty, hm, Except.ok.injEq] at h
      subst h
      exact ⟨rfl, rfl⟩

theorem markRow_fields (memberIds : List Int) (r : PositionRow) :
    (markRow memberIds r).row_kind = r.row_kind ∧
    (markRow memberIds r).counts_in_totals = r.counts_in_totals ∧
    (markRow memberIds r).current_value = r.current_value ∧
    (markRow memberIds r).unrealized_pnl = r.unrealized_pnl ∧
    (markRow memberIds r).group_name = r.group_name := by
  unfold markRow
  split <;> exact ⟨rfl, rfl, rfl, rfl, rfl⟩

theorem applyAllocation_fields (alloc : List (String × ℚ)) (r : PositionRow) :
    (applyAllocation alloc r).row_kind = r.row_kind ∧
    (applyAllocation alloc r).counts_in_totals = r.counts_in_totals ∧
    (applyAllocation alloc r).current_value = r.current_value ∧
    (applyAllocation alloc r).unrealized_pnl = r.unrealized_pnl ∧
    (applyAllocation alloc r).group_name = r.group_name := by
  unfold applyAllocation
  split <;> exact ⟨rfl, rfl, rfl, rfl, rfl⟩

theorem groupTotals_value (l : List PositionRow) :
    ∀ (m0 : String → GroupTotal) (g : String),
      ((l.foldl addGroupTotals m0) g).value =
        (m0 g).value +
          ((l.filter (fun r => r.group_name == g)).map
            (fun r => r.current_value)).sum := by
  induction l with
  | nil => intro m0 g; simp
  | cons r rest ih =>
    intro m0 g
    rw [List.foldl_cons, ih (addGroupTotals m0 r) g, List.filter_cons]
    by_cases hg : r.group_name = g
    · rw [if_pos (by simp [hg])]
      have hup : addGroupTotals m0 r g =
          ⟨(m0 r.group_name).value + r.current_value,
           (m0 r.group_name).pnl + r.unrealized_pnl.getD 0⟩ := if_pos hg.symm
      rw [hup, hg]
      simp only [List.map_cons, List.sum_cons]
      ring
    · rw [if_neg (by simp [hg])]
      have hup : addGroupTotals m0 r g = m0 g := if_neg (fun hgg => hg hgg.symm)
      rw [hup]

theorem groupTotals_pnl (l : List PositionRow) :
    ∀ (m0 : String → GroupTotal) (g : String),
      ((l.foldl addGroupTotals m0) g).pnl =
        (m0 g).pnl +
          ((l.filter (fun r => r.group_name == g)).map
            (fun r => r.unrealized_pnl.getD 0)).sum := by
  induction l with
  | nil => intro m0 g; simp
  | cons r rest ih =>
    intro m0 g
    rw [List.foldl_cons, ih (addGroupTotals m0 r) g, List.filter_cons]
    by_cases hg : r.group_name = g
    · rw [if_pos (by simp [hg])]
      have hup : addGroupTotals m0 r g =
          ⟨(m0 r.group_name).value + r.current_value,
           (m0 r.group_name).pnl + r.unrealized_pnl.getD 0⟩ := if_pos hg.symm
      rw [hup, hg]
      simp only [List.map_cons, List.sum_cons]
      ring
    · rw [if_neg (by simp [hg])]
      have hup : addGroupTotals m0 r g = m0 g := if_neg (fun hgg => hg hgg.symm)
      rw [hup]

/-- Every row surviving the canonical filter is a per-asset row, provided all
computed asset rows are per-asset rows. -/
theorem snapshot_canonical_mem (assetRows : List PositionRow) (baskets : List Basket)
    (hrows : ∀ r ∈ assetRows, r.row_kind = "asset" ∧ r.counts_in_totals = true) :
    ∀ r ∈ (snapshotAllRows assetRows baskets).filter (fun r => r.counts_in_totals),
      r.row_kind = "asset" := by
  intro r hr
  obtain ⟨hmem, hcount⟩ := List.mem_filter.mp hr
  have hmem' : r ∈ assetRows.map (markRow (basketMemberIds baskets assetRows)) ++
      baskets.map (fun b => computeBasketPosition b assetRows) :=
    (List.perm_insertionSort rowSortLe _).mem_iff.mp hmem
  rcases List.mem_append.mp hmem' with hmem' | hmem'
  · obtain ⟨r0, hr0, rfl⟩ := List.mem_map.mp hmem'
    rw [(markRow_fields _ r0).1]
    exact (hrows r0 hr0).1
  · obtain ⟨b, _, rfl⟩ := List.mem_map.mp hmem'
    exact absurd hcount (by simp [computeBasketPosition])

theorem sum_map_div (l : List ℚ) (c : ℚ) :
    (l.map (fun w => w / c)).sum = l.sum / c := by
  induction l with
  | nil => simp
  | cons x xs ih => simp [ih]; ring

theorem zip_map_fst_mul_sum (c : ℚ) :
    ∀ (ws : List ℚ) (ps : List (BasketLink × MAsset)), ws.length = ps.length →
      ((ws.zip ps).map (fun wp => wp.1 * c)).sum = ws.sum * c := by
  intro ws
  induction ws with
  | nil => intro ps _; simp
  | cons w ws ih =>
    intro ps h
    cases ps with
    | nil => simp at h
    | cons p ps =>
      simp only [List.zip_cons_cons, List.map_cons, List.sum_cons]
      rw [ih ps (by simpa using h)]
      ring

theorem collectSeries_spec (f : String → Except String (List HistoricalPoint))
    (s e : Nat) (pos : List (BasketLink × MAsset)) :
    collectSeries f s e pos =
      ((pos.filter (fun p => !(memberSeries f s e p).isEmpty)).map
         (fun p => (p.1.asset_id, memberSeries f s e p)),
       (pos.filter (fun p => (memberSeries f s e p).isEmpty)).map
         (fun p => p.2.symbol)) := by
  have go : ∀ (l : List (BasketLink × MAsset))
      (acc : List (Int × List (Nat × ℚ)) × List String),
      l.foldl (fun acc p =>
        let series := memberSeries f s e p
        if series = [] then (acc.1, acc.2 ++ [p.2.symbol])
        else (acc.1 ++ [(p.1.asset_id, series)], acc.2)) acc =
      (acc.1 ++ (l.filter (fun p => !(memberSeries f s e p).isEmpty)).map
         (fun p => (p.1.asset_id, memberSeries f s e p)),
       acc.2 ++ (l.filter (fun p => (memberSeries f s e p).isEmpty)).map
         (fun p => p.2.symbol)) := by
    intro l
    induction l with
    | nil => intro acc; simp
    | cons p rest ih =>
      intro acc
      rw [List.foldl_cons]
      by_cases hp : memberSeries f s e p = []
      · rw [if_pos hp, ih]
        simp [List.filter_cons, hp, List.isEmpty_iff]
      · rw [if_neg hp, ih]
        simp [List.filter_cons, List.isEmpty_iff, hp]
  rw [collectSeries, go]
  simp

theorem commonDates_go (dict : List (Int × List (Nat × ℚ))) :
    ∀ (cs : List Nat) (d : Nat),
      d ∈ (dict.foldl
        (fun (acc : Option (List Nat)) kv =>
          match acc with
          | none => some (seriesDates kv.2)
          | some cs => some (cs.filter (fun d => (seriesDates kv.2).contains d)))
        (some cs)).getD [] ↔
      (d ∈ cs ∧ ∀ kv ∈ dict, d ∈ seriesDates kv.2) := by
  induction dict with
  | nil => intro cs d; simp
  | cons kv rest ih =>
    intro cs d
    rw [List.foldl_cons]
    show d ∈ (rest.foldl _ (some (cs.filter _))).getD [] ↔ _
    rw [ih]
    simp only [List.mem_filter, List.mem_cons, forall_eq_or_imp]
    constructor
    · rintro ⟨⟨h1, h2⟩, h3⟩
      exact ⟨h1, by simpa using h2, h3⟩
    · rintro ⟨h1, h2, h3⟩
      exact ⟨⟨h1, by simpa using h2⟩, h3⟩

theorem commonDates_mem (kv0 : Int × List (Nat × ℚ))
    (rest : List (Int × List (Nat × ℚ))) (d : Nat) :
    d ∈ commonDates (kv0 :: rest) ↔ ∀ kv ∈ kv0 :: rest, d ∈ seriesDates kv.2 := by
  unfold commonDates
  rw [List.foldl_cons]
  show d ∈ (rest.foldl _ (some (seriesDates kv0.2))).getD [] ↔ _
  rw [commonDates_go]
  simp [List.mem_cons, forall_eq_or_imp, and_comm]

theorem memberSeries_pos (f : String → Except String (List HistoricalPoint))
    (s e : Nat) (p : BasketLink × MAsset) :
    ∀ kv ∈ memberSeries f s e p, 0 < kv.2 := by
  intro kv hkv
  unfold memberSeries at hkv
  obtain ⟨pt, _, hmap⟩ := List.mem_filterMap.mp hkv
  by_cases h : s ≤ pt.date ∧ pt.date ≤ e ∧ 0 < pt.close
  · rw [if_pos h] at hmap
    injection hmap with hmap
    rw [← hmap]
    exact h.2.2
  · rw [if_neg h] at hmap
    cases hmap

theorem seriesGet_pos (s : List (Nat × ℚ)) (d : Nat)
    (hpos : ∀ kv ∈ s, 0 < kv.2) (hd : d ∈ seriesDates s) :
    0 < (seriesGet s d).getD 0 := by
  unfold seriesGet
  cases hf : s.reverse.find? (fun kv => kv.1 == d) with
  | none =>
    exfalso
    rw [List.find?_eq_none] at hf
    unfold seriesDates at hd
    rw [List.mem_dedup] at hd
    obtain ⟨kv, hkv, h1⟩ := List.mem_map.mp hd
    exact hf kv (List.mem_reverse.mpr hkv) (by simp [h1])
  | some kv =>
    have hmem := List.mem_reverse.mp (List.mem_of_find?_eq_some hf)
    simpa using hpos kv hmem

theorem seriesDictGet_mem (dict : List (Int × List (Nat × ℚ))) (aid : Int)
    (hex : ∃ kv ∈ dict, kv.1 = aid) :
    ∃ kv ∈ dict, kv.1 = aid ∧ seriesDictGet dict aid = kv.2 := by
  unfold seriesDictGet
  cases hf : dict.reverse.find? (fun kv => kv.1 == aid) with
  | none =>
    exfalso
    rw [List.find?_eq_none] at hf
    obtain ⟨kv, hkv, h1⟩ := hex
    exact hf kv (List.mem_reverse.mpr hkv) (by simp [h1])
  | some kv =>
    have hmem := List.mem_reverse.mp (List.mem_of_find?_eq_some hf)
    have hkey := List.find?_some hf
    exact ⟨kv, hmem, by simpa using hkey, rfl⟩

theorem baselineGet_of_map {α : Type} (l : List α) (key : α → Int) (g : Int → ℚ)
    (k : Int) (hex : ∃ x ∈ l, key x = k) :
    baselineGet (l.map (fun x => (key x, g (key x)))) k = g k := by
  unfold baselineGet
  cases hf : (l.map (fun x => (key x, g (key x)))).reverse.find?
      (fun kv => kv.1 == k) with
  | none =>
    exfalso
    rw [List.find?_eq_none] at hf
    obtain ⟨x, hx, hk⟩ := hex
    exact hf (key x, g (key x))
      (List.mem_reverse.mpr (List.mem_map_of_mem _ hx)) (by simp [hk])
  | some kv =>
    have hmem := List.mem_reverse.mp (List.mem_of_find?_eq_some hf)
    have hkey := List.find?_some hf
    obtain ⟨x, _, hkv⟩ := List.mem_map.mp hmem
    rw [← hkv]
    rw [← hkv] at hkey
    simp only [beq_iff_eq] at hkey
    simp [hkey]

theorem collectBaselines_ok (dict : List (Int × List (Nat × ℚ))) (startDate : Nat) :
    ∀ pos : List (BasketLink × MAsset),
      (∀ p ∈ pos, 0 < (seriesGet (seriesDictGet dict p.1.asset_id) startDate).getD 0) →
      collectBaselines dict startDate pos =
        .ok (pos.map (fun p => (p.1.asset_id,
          (seriesGet (seriesDictGet dict p.1.asset_id) startDate).getD 0))) := by
  intro pos
  induction pos with
  | nil => intro _; rfl
  | cons p rest ih =>
    intro hall
    show (if _ ≤ _ then _ else _) = _
    rw [if_neg (not_le.mpr (hall p (List.mem_cons_self p rest))),
        ih (fun q hq => hall q (List.mem_cons_of_mem p hq))]
    rfl

theorem weights_ok (quant : Int → ℚ) (pos : List (BasketLink × MAsset))
    (hne : pos ≠ []) (hall : ∀ p ∈ pos, 0 < quant p.1.asset_id) :
    0 < (pos.map (fun p => max (quant p.1.asset_id) 0)).sum
    ∧ normalized_basket_weights quant pos =
      .ok ((pos.map (fun p => max (quant p.1.asset_id) 0)).map
        (fun w => w / (pos.map (fun p => max (quant p.1.asset_id) 0)).sum)) := by
  have hsum : 0 < (pos.map (fun p => max (quant p.1.asset_id) 0)).sum := by
    apply List.sum_pos
    · intro x hx
      obtain ⟨p, hp, rfl⟩ := List.mem_map.mp hx
      exact lt_max_of_lt_left (hall p hp)
    · simp only [ne_eq, List.map_eq_nil_iff]
      exact hne
  refine ⟨hsum, ?_⟩
  cases pos with
  | nil => exact absurd rfl hne
  | cons p rest =>
    show (if _ ≤ 0 then Except.error _ else _) = _
    rw [if_neg (not_le.mpr hsum)]

theorem map_upd_sum (canonical : List PositionRow) (alloc : List (String × ℚ))
    (f : PositionRow → ℚ) (hf : ∀ r, f (applyAllocation alloc r) = f r) :
    ((canonical.map (applyAllocation alloc)).map f).sum = (canonical.map f).sum := by
  rw [List.map_map]
  exact congrArg List.sum (List.map_congr_left fun r _ => hf r)

theorem map_upd_filter_sum (canonical : List PositionRow) (alloc : List (String × ℚ))
    (g : String) (f : PositionRow → ℚ)
    (hf : ∀ r, f (applyAllocation alloc r) = f r) :
    (((canonical.map (applyAllocation alloc)).filter
        (fun r => r.group_name == g)).map f).sum =
      ((canonical.filter (fun r => r.group_name == g)).map f).sum := by
  rw [List.filter_map, List.map_map]
  have hfil : canonical.filter ((fun r => r.group_name == g) ∘ applyAllocation alloc) =
      canonical.filter (fun r => r.group_name == g) :=
    List.filter_congr (fun r _ => by
      simp [Function.comp, (applyAllocation_fields alloc r).2.2.2.2])
  rw [hfil]
  exact congrArg List.sum (List.map_congr_left fun r _ => by
    simp [Function.comp, hf r])

end Lemmas

section Claims

/-- C1: for every non-empty sequence of valid BUY transactions (positive
quantity, finite price — automatic for rationals — and non-negative fees),
`compute_market_position` accepts the sequence, returning the summed quantity
and average cost (sum of quantity times price plus sum of fees) divided by the
total quantity. -/
theorem market_position_buy_only (txs : List Tx) (hne : txs ≠ [])
    (hall : ∀ tx ∈ txs, tx.type = TxType.BUY ∧ 0 < tx.quantity ∧ 0 ≤ tx.fees) :
    compute_market_position txs =
      .ok ⟨(txs.map (·.quantity)).sum,
           ((txs.map (fun t => t.quantity * t.price)).sum + (txs.map (·.fees)).sum) /
             (txs.map (·.quantity)).sum⟩ := by
  have hperm : List.Perm (sort_transactions txs) txs :=
    List.perm_insertionSort txLe txs
  have hall' : ∀ tx ∈ sort_transactions txs,
      tx.type = TxType.BUY ∧ 0 < tx.quantity ∧ 0 ≤ tx.fees :=
    fun tx htx => hall tx (hperm.mem_iff.mp htx)
  have hqsum : ((sort_transactions txs).map (·.quantity)).sum =
      (txs.map (·.quantity)).sum := (hperm.map (·.quantity)).sum_eq
  have hcsum : ((sort_transactions txs).map (fun t => t.quantity * t.price + t.fees)).sum =
      (txs.map (fun t => t.quantity * t.price + t.fees)).sum :=
    (hperm.map (fun t => t.quantity * t.price + t.fees)).sum_eq
  have hpos : 0 < (txs.map (·.quantity)).sum := by
    apply List.sum_pos
    · intro x hx
      obtain ⟨t, ht, rfl⟩ := List.mem_map.mp hx
      exact (hall t ht).2.1
    · simp only [ne_eq, List.map_eq_nil_iff]
      exact hne
  have hpos' : 0 < (0 : ℚ) + ((sort_transactions txs).map (·.quantity)).sum := by
    rw [zero_add, hqsum]; exact hpos
  unfold compute_market_position
  rw [buyReplay (sort_transactions txs) hall' 0 0 le_rfl hpos']
  congr 1
  refine MarketPosition.mk.injEq .. ▸ ?_
  constructor
  · rw [zero_add, hqsum]
  · rw [zero_add, hqsum, mul_zero, zero_add, hcsum, sum_map_add]

/-- Witness for C1 applying it to the spec's worked BUY example. -/
theorem market_position_buy_only_witness :
    compute_market_position
        [⟨1, 1, 1, .BUY, 10, 100, 5, 0, none⟩, ⟨2, 1, 2, .BUY, 5, 120, 2, 0, none⟩] =
      .ok ⟨15, 1607 / 15⟩ := by
  have h := market_position_buy_only
    [⟨1, 1, 1, .BUY, 10, 100, 5, 0, none⟩, ⟨2, 1, 2, .BUY, 5, 120, 2, 0, none⟩]
    (by decide) (by decide)
  rw [h]
  rfl

/-- C2: during the replay of `compute_market_position`, a SELL whose quantity
exceeds the currently held quantity by more than the `1e-9` epsilon is
rejected with `InvalidTransaction`, while a SELL whose quantity is at most the
held quantity plus epsilon passes the oversell check. -/
theorem market_sell_oversell (txs pre rest : List Tx) (tx : Tx) (s : MarketPosition)
    (hsplit : sort_transactions txs = pre ++ tx :: rest)
    (hpre : marketReplayFrom ⟨0, 0⟩ pre = .ok s)
    (hty : tx.type = TxType.SELL) (hq : 0 < tx.quantity) (hp : 0 < tx.price) :
    (eps < tx.quantity - s.quantity →
      compute_market_position txs =
        .error "Cannot sell more than currently held quantity")
    ∧ (tx.quantity - s.quantity ≤ eps → ∃ s', marketStep s tx = .ok s') := by
  constructor
  · intro hover
    unfold compute_market_position
    rw [hsplit, marketReplayFrom_append, hpre]
    show marketReplayFrom s (tx :: rest) = _
    simp only [marketReplayFrom, marketStep, hty]
    rw [if_neg (not_le.mpr hq), if_neg (not_le.mpr hp), if_pos hover]
  · intro hok
    simp only [marketStep, hty]
    rw [if_neg (not_le.mpr hq), if_neg (not_le.mpr hp), if_neg (not_lt.mpr hok)]
    by_cases hres : s.quantity - tx.quantity ≤ eps
    · rw [if_pos hres]; exact ⟨_, rfl⟩
    · rw [if_neg hres]; exact ⟨_, rfl⟩

/-- Witness for C2: an oversell of 5 against 1 held is rejected, and a SELL of
the exact held amount passes the oversell check. -/
theorem market_sell_oversell_witness :
    compute_market_position
        [⟨1, 1, 1, .BUY, 1, 10, 0, 0, none⟩, ⟨2, 1, 2, .SELL, 5, 10, 0, 0, none⟩] =
      .error "Cannot sell more than currently held quantity"
    ∧ ∃ s', marketStep ⟨1, 10⟩ ⟨2, 1, 2, .SELL, 1, 10, 0, 0, none⟩ = .ok s' := by
  constructor
  · exact (market_sell_oversell
      [⟨1, 1, 1, .BUY, 1, 10, 0, 0, none⟩, ⟨2, 1, 2, .SELL, 5, 10, 0, 0, none⟩]
      [⟨1, 1, 1, .BUY, 1, 10, 0, 0, none⟩] []
      ⟨2, 1, 2, .SELL, 5, 10, 0, 0, none⟩ ⟨1, 10⟩
      rfl rfl rfl (by norm_num) (by norm_num)).1 (by norm_num [eps])
  · exact (market_sell_oversell
      [⟨1, 1, 1, .BUY, 1, 10, 0, 0, none⟩, ⟨2, 1, 2, .SELL, 1, 10, 0, 0, none⟩]
      [⟨1, 1, 1, .BUY, 1, 10, 0, 0, none⟩] []
      ⟨2, 1, 2, .SELL, 1, 10, 0, 0, none⟩ ⟨1, 10⟩
      rfl rfl rfl (by norm_num) (by norm_num)).2 (by norm_num [eps])

/-- C3: a valid replay ending with a SELL whose residual quantity is within
the `1e-9` epsilon of zero returns quantity exactly 0 and average cost
exactly 0. -/
theorem market_sell_to_zero_resets (txs pre : List Tx) (tx : Tx) (s : MarketPosition)
    (hsplit : sort_transactions txs = pre ++ [tx])
    (hpre : marketReplayFrom ⟨0, 0⟩ pre = .ok s)
    (hty : tx.type = TxType.SELL) (hq : 0 < tx.quantity) (hp : 0 < tx.price)
    (hok : tx.quantity - s.quantity ≤ eps)
    (hres : s.quantity - tx.quantity ≤ eps) :
    compute_market_position txs = .ok ⟨0, 0⟩ := by
  unfold compute_market_position
  rw [hsplit, marketReplayFrom_append, hpre]
  show marketReplayFrom s [tx] = _
  simp only [marketReplayFrom, marketStep, hty]
  rw [if_neg (not_le.mpr hq), if_neg (not_le.mpr hp), if_neg (not_lt.mpr hok),
      if_pos hres]

/-- Witness for C3: buying 1 then selling exactly 1 returns the zero position. -/
theorem market_sell_to_zero_resets_witness :
    compute_market_position
        [⟨1, 1, 1, .BUY, 1, 10, 0, 0, none⟩, ⟨2, 1, 2, .SELL, 1, 10, 0, 0, none⟩] =
      .ok ⟨0, 0⟩ :=
  market_sell_to_zero_resets
    [⟨1, 1, 1, .BUY, 1, 10, 0, 0, none⟩, ⟨2, 1, 2, .SELL, 1, 10, 0, 0, none⟩]
    [⟨1, 1, 1, .BUY, 1, 10, 0, 0, none⟩]
    ⟨2, 1, 2, .SELL, 1, 10, 0, 0, none⟩ ⟨1, 10⟩
    rfl rfl rfl (by norm_num) (by norm_num) (by norm_num [eps]) (by norm_num [eps])

/-- C4: a transaction history containing any MANUAL_VALUE_UPDATE is rejected
by `validate_asset_transactions` for a MARKET asset. -/
theorem market_rejects_manual_value_update (txs : List Tx) (tx : Tx)
    (hmem : tx ∈ txs) (hty : tx.type = TxType.MANUAL_VALUE_UPDATE) :
    validate_asset_transactions AssetType.MARKET txs =
      .error "Market assets do not support MANUAL_VALUE_UPDATE transactions" := by
  have hany : txs.any (fun t => t.type == TxType.MANUAL_VALUE_UPDATE) = true :=
    List.any_eq_true.mpr ⟨tx, hmem, by simp [hty]⟩
  simp [validate_asset_transactions, hany]

/-- Witness for C4 at a singleton MANUAL_VALUE_UPDATE history. -/
theorem market_rejects_manual_value_update_witness :
    validate_asset_transactions AssetType.MARKET
        [⟨1, 1, 1, .MANUAL_VALUE_UPDATE, 0, 0, 0, 5, none⟩] =
      .error "Market assets do not support MANUAL_VALUE_UPDATE transactions" :=
  market_rejects_manual_value_update _ ⟨1, 1, 1, .MANUAL_VALUE_UPDATE, 0, 0, 0, 5, none⟩
    (List.mem_singleton.mpr rfl) rfl

/-- Counterexample to C5 as stated: an invested override of 0 (which is `≥ 0`)
resets the synthetic average cost to 0, not to 1. -/
theorem manual_override_counterexample :
    manualStep ⟨5, 2, 10, none, none⟩
        ⟨7, 1, 7, TxType.MANUAL_VALUE_UPDATE, 0, 0, 0, 3, some 0⟩ =
      .ok ⟨0, 0, 0, some 3, some 7⟩ ∧ (0 : ℚ) ≠ 1 := by
  constructor
  · rfl
  · norm_num

/-- C5 (amended): a MANUAL_VALUE_UPDATE with invested override `o ≥ 0` hard
resets the state regardless of the prior state: invested basis and synthetic
held quantity both become `o`, and the synthetic average cost becomes 1 when
`o > 0` and 0 when `o = 0`. -/
theorem manual_override_hard_reset (s : ManualState) (tx : Tx) (o : ℚ)
    (hty : tx.type = TxType.MANUAL_VALUE_UPDATE)
    (ho : tx.invested_override = some o) (honn : 0 ≤ o) (hv : 0 ≤ tx.manual_value) :
    manualStep s tx =
      .ok ⟨o, if 0 < o then 1 else 0, o, some tx.manual_value, some tx.timestamp⟩ := by
  simp only [manualStep, hty, ho]
  rw [if_neg (not_lt.mpr hv), if_neg (not_lt.mpr honn)]

/-- Witness for C5 (amended) at a positive override. -/
theorem manual_override_hard_reset_witness :
    manualStep ⟨2, 3, 6, none, none⟩
        ⟨4, 1, 9, TxType.MANUAL_VALUE_UPDATE, 0, 0, 0, 12, some 5⟩ =
      .ok ⟨5, 1, 5, some 12, some 9⟩ := by
  have h := manual_override_hard_reset ⟨2, 3, 6, none, none⟩
    ⟨4, 1, 9, TxType.MANUAL_VALUE_UPDATE, 0, 0, 0, 12, some 5⟩ 5
    rfl rfl (by norm_num) (by norm_num)
  rw [h]
  norm_num

/-- C7: allocation percentages sum to exactly 100 when the total is positive,
and are all exactly 0 when the total is non-positive. -/
theorem allocation_percentages_sum (m : List (String × ℚ)) :
    (0 < (m.map Prod.snd).sum →
      ((compute_allocation_percentages m).map Prod.snd).sum = 100)
    ∧ ((m.map Prod.snd).sum ≤ 0 →
      ∀ kv ∈ compute_allocation_percentages m, kv.2 = 0) := by
  constructor
  · intro hpos
    have hne : (m.map Prod.snd).sum ≠ 0 := ne_of_gt hpos
    simp only [compute_allocation_percentages]
    rw [if_neg (not_le.mpr hpos), List.map_map]
    have hfun : (Prod.snd ∘ fun kv : String × ℚ =>
        (kv.1, kv.2 / (m.map Prod.snd).sum * 100)) =
        fun kv : String × ℚ => Prod.snd kv * (100 / (m.map Prod.snd).sum) := by
      funext kv
      simp only [Function.comp_apply]
      ring
    rw [hfun, sum_map_mul_const Prod.snd _ m]
    field_simp
  · intro hnp kv hkv
    simp only [compute_allocation_percentages] at hkv
    rw [if_pos hnp] at hkv
    obtain ⟨x, _, rfl⟩ := List.mem_map.mp hkv
    rfl

/-- Witness for C7: a positive-total map sums to 100; an all-zero map yields
all-zero percentages. -/
theorem allocation_percentages_sum_witness :
    ((compute_allocation_percentages [("a", 1), ("b", 3)]).map Prod.snd).sum = 100
    ∧ ∀ kv ∈ compute_allocation_percentages [("x", 0)], kv.2 = 0 := by
  constructor
  · exact (allocation_percentages_sum [("a", 1), ("b", 3)]).1 (by norm_num)
  · exact (allocation_percentages_sum [("x", 0)]).2 (by norm_num)

/-- Updates-only replay: a run of MANUAL_VALUE_UPDATE transactions without
invested overrides never changes held quantity, average cost, or invested
basis. -/
theorem manualReplay_updates_only (l : List Tx)
    (hl : ∀ u ∈ l, u.type = TxType.MANUAL_VALUE_UPDATE ∧ 0 ≤ u.manual_value ∧
          u.invested_override = none) :
    ∀ s : ManualState, ∃ s', manualReplayFrom s l = .ok s' ∧
      s'.held_quantity = s.held_quantity ∧ s'.avg_cost = s.avg_cost ∧
      s'.invested_total = s.invested_total := by
  induction l with
  | nil => intro s; exact ⟨s, rfl, rfl, rfl, rfl⟩
  | cons u rest ih =>
    intro s
    obtain ⟨hty, hv, ho⟩ := hl u (List.mem_cons_self u rest)
    have hrest := fun t ht => hl t (List.mem_cons_of_mem u ht)
    have hstep : manualStep s u =
        .ok { s with latest_value := some u.manual_value,
                     latest_value_at := some u.timestamp } := by
      simp only [manualStep, hty, ho]
      rw [if_neg (not_lt.mpr hv)]
    obtain ⟨s', h1, h2, h3, h4⟩ := ih hrest
      { s with latest_value := some u.manual_value, latest_value_at := some u.timestamp }
    refine ⟨s', ?_, h2, h3, h4⟩
    simp only [manualReplayFrom, hstep]
    exact h1

/-- C10: a SELL that brings the synthetic held quantity within epsilon of
zero resets held quantity, average cost, and invested basis to exactly 0;
after such a sell-off, a run of MANUAL_VALUE_UPDATEs without invested
override yields a position with zero invested total and no unrealized P&L. -/
theorem manual_selloff_resets (txs pre updates : List Tx) (tx : Tx) (s : ManualState)
    (hsplit : sort_transactions txs = pre ++ tx :: updates)
    (hpre : manualReplayFrom initManual pre = .ok s)
    (hty : tx.type = TxType.SELL) (hq : 0 < tx.quantity)
    (hp : 0 ≤ tx.price) (hf : 0 ≤ tx.fees)
    (hsell : tx.quantity - s.held_quantity ≤ eps)
    (hres : s.held_quantity - tx.quantity ≤ eps)
    (hupd : ∀ u ∈ updates, u.type = TxType.MANUAL_VALUE_UPDATE ∧ 0 ≤ u.manual_value ∧
            u.invested_override = none) :
    manualStep s tx =
      .ok { s with held_quantity := 0, avg_cost := 0, invested_total := 0 }
    ∧ ∃ pos, compute_manual_position txs = .ok pos ∧
        pos.invested_total = 0 ∧ pos.unrealized_pnl = none := by
  have hstep : manualStep s tx =
      .ok { s with held_quantity := 0, avg_cost := 0, invested_total := 0 } := by
    simp only [manualStep, hty]
    rw [if_neg (not_le.mpr hq), if_neg (not_lt.mpr hp), if_neg (not_lt.mpr hf),
        if_neg (not_lt.mpr hsell), if_pos hres]
  refine ⟨hstep, ?_⟩
  obtain ⟨s', h1, _, _, h4⟩ := manualReplay_updates_only updates hupd
    { s with held_quantity := 0, avg_cost := 0, invested_total := 0 }
  refine ⟨manualFinish s', ?_, ?_, ?_⟩
  · unfold compute_manual_position
    rw [hsplit, manualReplayFrom_append, hpre]
    show (manualReplayFrom s (tx :: updates)).map manualFinish = _
    simp only [manualReplayFrom, hstep]
    rw [h1]
    rfl
  · simpa using h4
  · simp only [manualFinish]
    rw [h4]
    simp

/-- Witness for C10: buy 2 units, sell exactly 2, then one value update. -/
theorem manual_selloff_resets_witness :
    manualStep ⟨2, 5, 10, none, none⟩ ⟨2, 1, 2, .SELL, 2, 1, 0, 0, none⟩ =
      .ok ⟨0, 0, 0, none, none⟩
    ∧ ∃ pos, compute_manual_position
        [⟨1, 1, 1, .BUY, 2, 5, 0, 0, none⟩, ⟨2, 1, 2, .SELL, 2, 1, 0, 0, none⟩,
         ⟨3, 1, 3, .MANUAL_VALUE_UPDATE, 0, 0, 0, 7, none⟩] = .ok pos ∧
        pos.invested_total = 0 ∧ pos.unrealized_pnl = none :=
  manual_selloff_resets
    [⟨1, 1, 1, .BUY, 2, 5, 0, 0, none⟩, ⟨2, 1, 2, .SELL, 2, 1, 0, 0, none⟩,
     ⟨3, 1, 3, .MANUAL_VALUE_UPDATE, 0, 0, 0, 7, none⟩]
    [⟨1, 1, 1, .BUY, 2, 5, 0, 0, none⟩]
    [⟨3, 1, 3, .MANUAL_VALUE_UPDATE, 0, 0, 0, 7, none⟩]
    ⟨2, 1, 2, .SELL, 2, 1, 0, 0, none⟩ ⟨2, 5, 10, none, none⟩
    rfl rfl rfl (by norm_num) (by norm_num) (by norm_num)
    (by norm_num [eps]) (by norm_num [eps]) (by norm_num)

/-- C9: within-TTL cache hits return the cached price not stale; on provider
failure an existing (possibly expired) cache entry is returned stale with a
warning, and a missing cache entry yields no quote; the provider failure is
absorbed, never propagated. -/
theorem get_quote_cache_behavior (provider : String → Except String (ℚ × Int))
    (ttl : Int) (cache : List QuoteCacheEntry) (now : Int) (symbol : String) :
    (∀ e, cache.find? (fun c => c.symbol == pyUpper (pyStrip symbol)) = some e →
      now - e.fetched_at ≤ ttl →
      (get_quote provider ttl cache now symbol).1 =
        some ⟨pyUpper (pyStrip symbol), e.price, e.fetched_at, false, none⟩)
    ∧ (∀ e err, cache.find? (fun c => c.symbol == pyUpper (pyStrip symbol)) = some e →
      ttl < now - e.fetched_at → provider (pyUpper (pyStrip symbol)) = .error err →
      (get_quote provider ttl cache now symbol).1 =
        some ⟨pyUpper (pyStrip symbol), e.price, e.fetched_at, true,
              some ("Using cached quote due to provider issue: " ++ err)⟩)
    ∧ (∀ err, cache.find? (fun c => c.symbol == pyUpper (pyStrip symbol)) = none →
      provider (pyUpper (pyStrip symbol)) = .error err →
      (get_quote provider ttl cache now symbol).1 = none) := by
  refine ⟨?_, ?_, ?_⟩
  · intro e hfind hage
    simp only [get_quote, hfind]
    rw [if_pos hage]
  · intro e err hfind hage hprov
    simp only [get_quote, hfind, hprov]
    rw [if_neg (not_le.mpr hage)]
  · intro err hfind hprov
    simp only [get_quote, hfind, hprov]

/-- Witness for C9: a fresh cache hit, an expired entry with failing
provider, and a missing entry with failing provider. -/
theorem get_quote_cache_behavior_witness :
    (get_quote (fun _ => .error "boom") 60 [⟨"AAPL", 100, 0⟩] 30 "AAPL").1 =
      some ⟨"AAPL", 100, 0, false, none⟩
    ∧ (get_quote (fun _ => .error "boom") 60 [⟨"AAPL", 100, 0⟩] 100 "AAPL").1 =
      some ⟨"AAPL", 100, 0, true,
            some "Using cached quote due to provider issue: boom"⟩
    ∧ (get_quote (fun _ => .error "boom") 60 [⟨"AAPL", 100, 0⟩] 100 "MSFT").1 =
      none := by
  refine ⟨?_, ?_, ?_⟩
  · exact (get_quote_cache_behavior (fun _ => .error "boom") 60 [⟨"AAPL", 100, 0⟩]
      30 "AAPL").1 ⟨"AAPL", 100, 0⟩ (by decide) (by decide)
  · exact (get_quote_cache_behavior (fun _ => .error "boom") 60 [⟨"AAPL", 100, 0⟩]
      100 "AAPL").2.1 ⟨"AAPL", 100, 0⟩ "boom" (by decide) (by decide) rfl
  · exact (get_quote_cache_behavior (fun _ => .error "boom") 60 [⟨"AAPL", 100, 0⟩]
      100 "MSFT").2.2 "boom" (by decide) rfl

/-- C6: in every built dashboard snapshot, the canonical rows are per-asset
rows only (basket rows never survive the canonical filter), and the canonical
total value, total unrealized P&L, and per-group totals are exactly the sums
of the corresponding fields over the canonical per-asset rows. -/
theorem dashboard_baskets_excluded (pricing : String → Option QuoteView)
    (assets : List MAsset) (txs : List Tx) (baskets : List Basket)
    (S : DashboardSnapshot)
    (h : build_dashboard_snapshot pricing assets txs baskets = .ok S) :
    (∀ r ∈ S.canonical_positions, r.row_kind = "asset")
    ∧ S.canonical_total_value =
        (S.canonical_positions.map (fun r => r.current_value)).sum
    ∧ S.canonical_total_unrealized_pnl =
        (S.canonical_positions.map (fun r => r.unrealized_pnl.getD 0)).sum
    ∧ ∀ g, (S.canonical_group_totals g).value =
          ((S.canonical_positions.filter (fun r => r.group_name == g)).map
            (fun r => r.current_value)).sum
        ∧ (S.canonical_group_totals g).pnl =
          ((S.canonical_positions.filter (fun r => r.group_name == g)).map
            (fun r => r.unrealized_pnl.getD 0)).sum := by
  unfold build_dashboard_snapshot at h
  cases hm : dashboardAssetRows pricing assets txs with
  | error e =>
    simp only [hm] at h
    exact Except.noConfusion h
  | ok assetRows =>
    simp only [hm, Except.ok.injEq] at h
    subst h
    have hrows : ∀ r ∈ assetRows, r.row_kind = "asset" ∧ r.counts_in_totals = true := by
      intro r hr
      obtain ⟨a, _, hfa⟩ := mapME_mem _ _ assetRows hm r hr
      exact compute_asset_position_fields _ _ _ _ hfa
    have hcanon : (buildSnapshotCore assetRows baskets).canonical_positions =
        ((snapshotAllRows assetRows baskets).filter (fun r => r.counts_in_totals)).map
          (applyAllocation (snapshotAllocMap
            ((snapshotAllRows assetRows baskets).filter
              (fun r => r.counts_in_totals)))) := rfl
    have htv : (buildSnapshotCore assetRows baskets).canonical_total_value =
        ((snapshotAllRows assetRows baskets).filter (fun r => r.counts_in_totals)).foldl
          (fun acc r => acc + r.current_value) 0 := rfl
    have htp : (buildSnapshotCore assetRows baskets).canonical_total_unrealized_pnl =
        ((snapshotAllRows assetRows baskets).filter (fun r => r.counts_in_totals)).foldl
          (fun acc r => acc + r.unrealized_pnl.getD 0) 0 := rfl
    have hgt : (buildSnapshotCore assetRows baskets).canonical_group_totals =
        ((snapshotAllRows assetRows baskets).filter (fun r => r.counts_in_totals)).foldl
          addGroupTotals (fun _ => ⟨0, 0⟩) := rfl
    refine ⟨?_, ?_, ?_, ?_⟩
    · intro r hr
      rw [hcanon] at hr
      obtain ⟨r0, hr0, rfl⟩ := List.mem_map.mp hr
      rw [(applyAllocation_fields _ r0).1]
      exact snapshot_canonical_mem assetRows baskets hrows r0 hr0
    · rw [htv, hcanon, foldl_add_map, zero_add,
          map_upd_sum _ _ _ (fun r => (applyAllocation_fields _ r).2.2.1)]
    · rw [htp, hcanon, foldl_add_map, zero_add,
          map_upd_sum _ _ _ (fun r => by rw [(applyAllocation_fields _ r).2.2.2.1])]
    · intro g
      constructor
      · rw [hgt, hcanon, groupTotals_value,
            map_upd_filter_sum _ _ _ _ (fun r => (applyAllocation_fields _ r).2.2.1)]
        simp
      · rw [hgt, hcanon, groupTotals_pnl,
            map_upd_filter_sum _ _ _ _
              (fun r => by rw [(applyAllocation_fields _ r).2.2.2.1])]
        simp

/-- Witness for C6 on the sample portfolio with a one-member basket. -/
theorem dashboard_baskets_excluded_witness :
    (∀ r ∈ sampleSnapshot.canonical_positions, r.row_kind = "asset")
    ∧ sampleSnapshot.canonical_total_value =
        (sampleSnapshot.canonical_positions.map (fun r => r.current_value)).sum
    ∧ sampleSnapshot.canonical_total_unrealized_pnl =
        (sampleSnapshot.canonical_positions.map (fun r => r.unrealized_pnl.getD 0)).sum
    ∧ ∀ g, (sampleSnapshot.canonical_group_totals g).value =
          ((sampleSnapshot.canonical_positions.filter (fun r => r.group_name == g)).map
            (fun r => r.current_value)).sum
        ∧ (sampleSnapshot.canonical_group_totals g).pnl =
          ((sampleSnapshot.canonical_positions.filter (fun r => r.group_name == g)).map
            (fun r => r.unrealized_pnl.getD 0)).sum :=
  dashboard_baskets_excluded samplePricing [sampleAsset] sampleTxs sampleBaskets
    sampleSnapshot rfl

/-- Counterexample to C8 as stated: ZZ is an active, non-archived MARKET
member of the basket with no historical data in the range, yet because its
live share count is zero it is dropped before the missing-data check:
`compute_basket_series` succeeds with points over the other member's dates
only, an empty missing-symbols list, and no error — the member is silently
omitted and its dates never constrain the intersection. -/
theorem basket_series_zero_share_counterexample :
    (basketLinkZ, basketAssetZ) ∈
      basketMarketLinks [(basketLinkZ, basketAssetZ), (basketLinkY, basketAssetY)]
    ∧ memberSeries sampleHistZeroShare 1 5 (basketLinkZ, basketAssetZ) = []
    ∧ compute_basket_series sampleHistZeroShare [basketLinkZ, basketLinkY] 1 5 =
        .ok ⟨[(1, 100), (2, 110)], [], none⟩ := by
  refine ⟨by decide, by decide, ?_⟩
  rfl

/-- C8 (amended): over a date range, a positive-share basket member (an
active MARKET member whose live share count is positive) with no in-range
historical data makes `compute_basket_series` return no points, that member's
symbol among the missing symbols, and the missing-data error message; when
every positive-share member has data, the series dates are exactly the
strict intersection of the positive-share members' available dates and the
composite value at the first common date is exactly 100. Zero-share active
members are dropped before the missing-data check. -/
theorem basket_series_intersection
    (provider_hist : String → Except String (List HistoricalPoint))
    (basket_links : List BasketLink) (startD endD : Nat)
    (pairs : List (BasketLink × MAsset))
    (hres : resolveLinks basket_links = .ok pairs)
    (hpos : basketPositiveLinks (basketMarketLinks pairs) ≠ []) :
    (∀ p ∈ basketPositiveLinks (basketMarketLinks pairs),
       memberSeries provider_hist startD endD p = [] →
       ∃ r, compute_basket_series provider_hist basket_links startD endD = .ok r ∧
         r.points = [] ∧ p.2.symbol ∈ r.missing_symbols ∧
         r.error_message =
           some ("Missing historical data for: " ++
                 String.intercalate ", " r.missing_symbols))
    ∧ ((∀ p ∈ basketPositiveLinks (basketMarketLinks pairs),
          memberSeries provider_hist startD endD p ≠ []) →
       commonDates (collectSeries provider_hist startD endD
           (basketPositiveLinks (basketMarketLinks pairs))).1 ≠ [] →
       ∃ r, compute_basket_series provider_hist basket_links startD endD = .ok r ∧
         r.missing_symbols = [] ∧ r.error_message = none ∧
         (∀ d, d ∈ r.points.map Prod.fst ↔
            ∀ p ∈ basketPositiveLinks (basketMarketLinks pairs),
              d ∈ seriesDates (memberSeries provider_hist startD endD p)) ∧
         (r.points.headD (0, 0)).2 = 100) := by
  set mlinks := basketMarketLinks pairs with hmlinks_def
  set pos := basketPositiveLinks mlinks with hpos_def
  have hml : mlinks ≠ [] := by
    intro h
    apply hpos
    rw [hpos_def, h]
    rfl
  have hq : ∀ p ∈ pos, 0 < quantityLookup mlinks p.1.asset_id := by
    intro p hp
    rw [hpos_def] at hp
    unfold basketPositiveLinks at hp
    simpa using (List.mem_filter.mp hp).2
  obtain ⟨htot, hwok⟩ := weights_ok (quantityLookup mlinks) pos hpos hq
  set raw := pos.map (fun p => max (quantityLookup mlinks p.1.asset_id) 0) with hraw_def
  set weights := raw.map (fun w => w / raw.sum) with hweights_def
  have hred : compute_basket_series provider_hist basket_links startD endD =
      basketSeriesTail provider_hist startD endD pos weights := by
    simp only [compute_basket_series, hres]
    rw [if_neg hml, if_neg hpos, hwok]
  constructor
  · -- part A: a positive member with no data yields the missing result
    intro p hp hempty
    have hmemfilter : p ∈ pos.filter
        (fun q => (memberSeries provider_hist startD endD q).isEmpty) :=
      List.mem_filter.mpr ⟨hp, by simp [List.isEmpty_iff, hempty]⟩
    have hmiss : (collectSeries provider_hist startD endD pos).2 ≠ [] := by
      rw [collectSeries_spec]
      intro hnil
      rw [List.map_eq_nil_iff] at hnil
      rw [hnil] at hmemfilter
      cases hmemfilter
    refine ⟨⟨[], sortedSetStr (collectSeries provider_hist startD endD pos).2,
            some ("Missing historical data for: " ++
              String.intercalate ", "
                (sortedSetStr (collectSeries provider_hist startD endD pos).2))⟩,
           ?_, rfl, ?_, rfl⟩
    · rw [hred]
      unfold basketSeriesTail
      rw [if_neg hmiss]
    · unfold sortedSetStr
      rw [(List.perm_insertionSort _ _).mem_iff, List.mem_dedup, collectSeries_spec]
      exact List.mem_map_of_mem _ hmemfilter
  · -- part B: complete data, strict intersection, first composite is 100
    intro hall hcds
    have hmiss : (collectSeries provider_hist startD endD pos).2 = [] := by
      rw [collectSeries_spec]
      simp only
      rw [List.map_eq_nil_iff, List.filter_eq_nil_iff]
      intro p hp
      simp [List.isEmpty_iff, hall p hp]
    have hdict : (collectSeries provider_hist startD endD pos).1 =
        pos.map (fun p => (p.1.asset_id, memberSeries provider_hist startD endD p)) := by
      rw [collectSeries_spec]
      simp only
      congr 1
      apply List.filter_eq_self.mpr
      intro p hp
      simp [List.isEmpty_iff, hall p hp]
    set dict := (collectSeries provider_hist startD endD pos).1 with hdict_def
    have hdictne : dict ≠ [] := by
      rw [hdict]
      simp only [ne_eq, List.map_eq_nil_iff]
      exact hpos
    set cds := commonDates dict with hcds_def
    set ordered := List.insertionSort (fun a b : Nat => a ≤ b) cds with hord_def
    have hordne : ordered ≠ [] := by
      intro h
      apply hcds
      have := (List.perm_insertionSort (fun a b : Nat => a ≤ b) cds).length_eq
      rw [hord_def] at h
      rw [h] at this
      exact List.length_eq_zero.mp this.symm
    have hmemiff : ∀ d, d ∈ cds ↔ ∀ kv ∈ dict, d ∈ seriesDates kv.2 := by
      intro d
      rw [hcds_def]
      cases hd : dict with
      | nil => exact absurd hd hdictne
      | cons kv0 restk => exact commonDates_mem kv0 restk d
    obtain ⟨d0, tail, hord⟩ := List.exists_cons_of_ne_nil hordne
    have hstartD : ordered.headD 0 = d0 := by rw [hord]; rfl
    have hd0cds : d0 ∈ cds := by
      rw [← (List.perm_insertionSort (fun a b : Nat => a ≤ b) cds).mem_iff, ← hord_def,
          hord]
      exact List.mem_cons_self d0 tail
    have hg : ∀ p ∈ pos,
        0 < (seriesGet (seriesDictGet dict p.1.asset_id) (ordered.headD 0)).getD 0 := by
      intro p hp
      obtain ⟨kv, hkv, _, hkeq⟩ := seriesDictGet_mem dict p.1.asset_id
        ⟨(p.1.asset_id, memberSeries provider_hist startD endD p),
         by rw [hdict]; exact List.mem_map_of_mem _ hp, rfl⟩
      rw [hkeq]
      apply seriesGet_pos
      · rw [hdict] at hkv
        obtain ⟨p', _, hp'⟩ := List.mem_map.mp hkv
        rw [← hp']
        exact memberSeries_pos provider_hist startD endD p'
      · rw [hstartD]
        exact (hmemiff d0).mp hd0cds kv hkv
    have hbase := collectBaselines_ok dict (ordered.headD 0) pos hg
    have hg0 := hg
    rw [hstartD] at hg0
    refine ⟨⟨ordered.map (fun day =>
        (day, compositeValue dict
          (pos.map (fun p => (p.1.asset_id,
            (seriesGet (seriesDictGet dict p.1.asset_id) (ordered.headD 0)).getD 0)))
          weights pos day)), [], none⟩, ?_, rfl, rfl, ?_, ?_⟩
    · rw [hred]
      unfold basketSeriesTail
      rw [if_pos hmiss, if_neg hdictne, if_neg hcds]
      show (match collectBaselines dict (ordered.headD 0) pos with
            | Except.error r => Except.ok r
            | Except.ok baselines =>
              Except.ok ⟨ordered.map (fun day =>
                (day, compositeValue dict baselines weights pos day)), [], none⟩) = _
      rw [hbase]
    · intro d
      simp only [List.map_map]
      have hcomp : (Prod.fst ∘ fun day : Nat =>
          ((day, compositeValue dict
            (pos.map (fun p => (p.1.asset_id,
              (seriesGet (seriesDictGet dict p.1.asset_id) (ordered.headD 0)).getD 0)))
            weights pos day) : Nat × ℚ)) = id := rfl
      rw [hcomp, List.map_id,
          (List.perm_insertionSort (fun a b : Nat => a ≤ b) cds).mem_iff, hmemiff d,
          hdict]
      constructor
      · intro h p hp
        simpa using h (p.1.asset_id, memberSeries provider_hist startD endD p)
          (List.mem_map_of_mem _ hp)
      · intro h kv hkv
        obtain ⟨p, hp, hkveq⟩ := List.mem_map.mp hkv
        rw [← hkveq]
        exact h p hp
    · rw [hord]
      simp only [List.map_cons, List.headD_cons]
      show compositeValue dict _ weights pos d0 = 100
      unfold compositeValue
      have hterm : ∀ wp ∈ weights.zip pos,
          wp.1 * (100 *
            ((seriesGet (seriesDictGet dict wp.2.1.asset_id) d0).getD 0 /
              baselineGet (pos.map (fun p => (p.1.asset_id,
                (seriesGet (seriesDictGet dict p.1.asset_id) d0).getD 0)))
                wp.2.1.asset_id)) = wp.1 * 100 := by
        intro wp hwp
        have hp2 : wp.2 ∈ pos := (List.of_mem_zip hwp).2
        have hbg : baselineGet (pos.map (fun p => (p.1.asset_id,
            (seriesGet (seriesDictGet dict p.1.asset_id) d0).getD 0)))
            wp.2.1.asset_id =
            (seriesGet (seriesDictGet dict wp.2.1.asset_id) d0).getD 0 :=
          baselineGet_of_map pos (fun p => p.1.asset_id)
            (fun k => (seriesGet (seriesDictGet dict k) d0).getD 0)
            wp.2.1.asset_id ⟨wp.2, hp2, rfl⟩
        rw [hbg]
        rw [div_self (ne_of_gt (hg0 wp.2 hp2)), mul_one]
      rw [List.map_congr_left hterm, zip_map_fst_mul_sum 100 weights pos
            (by rw [hweights_def, hraw_def]; simp),
          hweights_def, sum_map_div, div_self (ne_of_gt htot), one_mul]

/-- Witness for C8: a failing member produces the missing-data result, and a
two-member basket with data overlapping on days 2 and 3 indexes to 100 at the
first common date. -/
theorem basket_series_intersection_witness :
    (∃ r, compute_basket_series sampleHistMissing [basketLinkX, basketLinkY] 1 5 =
        .ok r ∧
      r.points = [] ∧ (basketLinkX, basketAssetX).2.symbol ∈ r.missing_symbols ∧
      r.error_message = some ("Missing historical data for: " ++
        String.intercalate ", " r.missing_symbols))
    ∧ (∃ r, compute_basket_series sampleHistFull [basketLinkX, basketLinkY] 1 5 =
        .ok r ∧
      r.missing_symbols = [] ∧ r.error_message = none ∧
      (∀ d, d ∈ r.points.map Prod.fst ↔
         ∀ p ∈ basketPositiveLinks (basketMarketLinks
             [(basketLinkX, basketAssetX), (basketLinkY, basketAssetY)]),
           d ∈ seriesDates (memberSeries sampleHistFull 1 5 p)) ∧
      (r.points.headD (0, 0)).2 = 100) := by
  constructor
  · exact (basket_series_intersection sampleHistMissing [basketLinkX, basketLinkY] 1 5
      [(basketLinkX, basketAssetX), (basketLinkY, basketAssetY)] rfl (by decide)).1
      (basketLinkX, basketAssetX) (by decide) (by decide)
  · exact (basket_series_intersection sampleHistFull [basketLinkX, basketLinkY] 1 5
      [(basketLinkX, basketAssetX), (basketLinkY, basketAssetY)] rfl (by decide)).2
      (by decide) (by decide)

end Claims

end Portfolio
